import Mathlib

/-!
# Verification of the doc-fetcher crawl engine (`src/scraper.py`)

This file gives a shallow embedding, in Lean 4, of the crawl-and-extract
logic of `DocScraper` and proves the specification's claims about it.

Modelling conventions:
* Python strings become `String`; `str.lower()`, `str.strip()`, the `in`
  substring test and `str.startswith` are re-implemented character-wise
  (`pyLower`, `pyStrip`, `pyContains`, `pyStartswith`) so that every
  predicate is executable and decidable.
* The HTTP transport and the HTML parse tree (requests / BeautifulSoup)
  are external collaborators.  A fetched, parsed page is modelled by the
  data the source actually reads from the parse tree after the
  `decompose` passes: the raw body, the first `h1` text, the content
  area's element list and anchor list, the whole-page anchor list and the
  CSS-selector hits (`FetchedPage`).  A transport error / raised exception
  is modelled by the fetcher returning `none`.
* `urllib.parse.urlparse` is modelled by `urlparse`, which follows
  CPython's `urlsplit` field splitting (scheme, netloc, path, dropping
  query and fragment) on well-formed and garbage inputs alike.
* The crawl loop `scrape_docs` becomes a fuel-indexed step function over
  an explicit `ScrapeState`; the fuel only bounds the number of loop
  iterations, and the loop's own exit conditions are modelled exactly.
-/

namespace DocFetcher

/-! ## Python string primitives -/

/-- Character-list version of Python's `s.startswith(p)`. -/
def startsWithChars : List Char → List Char → Bool
  | _, [] => true
  | [], _ :: _ => false
  | c :: cs, d :: ds => c == d && startsWithChars cs ds

/-- Python's `s.startswith(p)`. -/
def pyStartswith (s p : String) : Bool :=
  startsWithChars s.data p.data

/-- Character-list version of Python's substring test `sub in s`. -/
def infixOfChars : List Char → List Char → Bool
  | sub, [] => sub.isEmpty
  | sub, c :: rest => startsWithChars (c :: rest) sub || infixOfChars sub rest

/-- Python's substring test `sub in s`. -/
def pyContains (s sub : String) : Bool :=
  infixOfChars sub.data s.data

/-- Python's `s.lower()` (ASCII case folding). -/
def pyLower (s : String) : String :=
  ⟨s.data.map Char.toLower⟩

/-- Python's `s.strip()`: drop leading and trailing whitespace. -/
def pyStrip (s : String) : String :=
  ⟨((s.data.dropWhile Char.isWhitespace).reverse.dropWhile Char.isWhitespace).reverse⟩

/-- Python's `s.upper()` (ASCII case folding). -/
def pyUpper (s : String) : String :=
  ⟨s.data.map Char.toUpper⟩

/-! ## URL parsing (`urllib.parse.urlparse`, fields used by the source) -/

/-- The components of a parsed URL that `scraper.py` reads. -/
structure UrlParts where
  scheme : String
  netloc : String
  path : String
deriving DecidableEq, Repr

/-- Valid characters of a URL scheme (letters, digits, `+`, `-`, `.`). -/
def schemeChar (c : Char) : Bool :=
  c.isAlphanum || c == '+' || c == '-' || c == '.'

/-- Split a character list at the first character satisfying `p`:
returns the part before it and the remainder beginning with it. -/
def takeUntil (p : Char → Bool) : List Char → List Char × List Char
  | [] => ([], [])
  | c :: cs =>
    if p c then ([], c :: cs)
    else
      let r := takeUntil p cs
      (c :: r.1, r.2)

/-- Model of `urllib.parse.urlparse`, restricted to the `scheme`,
`netloc` and `path` fields the source uses.  It follows CPython's
`urlsplit`: an initial `name:` segment is a scheme when `name` is
non-empty, begins with a letter and has only scheme characters; a
following `//` introduces the netloc, delimited by `/`, `?` or `#`;
fragment and query are then split off and the remainder is the path. -/
def urlparse (url : String) : UrlParts :=
  let cs := url.data
  let sp := takeUntil (fun c => c == ':') cs
  let hasScheme :=
    match sp.2, sp.1 with
    | _ :: _, c :: rest => c.isAlpha && (c :: rest).all schemeChar
    | _, _ => false
  let scheme : List Char := if hasScheme then sp.1.map Char.toLower else []
  let rest : List Char := if hasScheme then sp.2.tail else cs
  let np :=
    match rest with
    | '/' :: '/' :: r =>
      let q := takeUntil (fun c => c == '/' || c == '?' || c == '#') r
      (q.1, q.2)
    | _ => ([], rest)
  let beforeFrag := (takeUntil (fun c => c == '#') np.2).1
  let path := (takeUntil (fun c => c == '?') beforeFrag).1
  ⟨⟨scheme⟩, ⟨np.1⟩, ⟨path⟩⟩

/-- `DocScraper.is_valid_docs_url`: the candidate's netloc equals the
base URL's netloc and its path starts with the base URL's path. -/
def is_valid_docs_url (base_url url : String) : Bool :=
  let parsed := urlparse url
  let base_parsed := urlparse base_url
  parsed.netloc == base_parsed.netloc && pyStartswith parsed.path base_parsed.path

/-! ## The parsed-page model (BeautifulSoup collaborator output)

`FetchedPage` records exactly the data `extract_content` reads from the
parse tree after decomposing `nav`/`footer`/`aside`/`script`/`style`
subtrees and the promotional blocks: the raw response text, the first
`h1` text, the chosen content area (if any), the whole-page anchors and
the flattened CSS-selector hits of the `nav_selectors` list.  Anchor
`href`s are stored already resolved against the page URL (`urljoin` is
collaborator work). -/

/-- An `<a href=...>` anchor: its resolved absolute URL and its
`get_text()` value. -/
structure Anchor where
  url : String
  text : String
deriving DecidableEq, Repr

/-- An anchor produced by one of the `nav_selectors` CSS queries,
with the attributes the classification logic reads: `get_text()`,
`str(get('class', []))`, `get('aria-label', '')`, and whether
`find(string=lambda t: t and 'next' in t.lower())` hits a descendant
text node. -/
structure NavAnchor where
  url : String
  text : String
  classes : String
  ariaLabel : String
  hasNextText : Bool
deriving DecidableEq, Repr

/-- One element of `content_area.find_all(['h1',...,'pre','code'])`:
its tag name and its `get_text()` value. -/
structure Element where
  name : String
  text : String
deriving DecidableEq, Repr

/-- The content area selected by `soup.find('main') or 'article' or
class-contains-content or 'body'`: its candidate text elements and its
anchors, in document order. -/
structure ContentArea where
  elements : List Element
  anchors : List Anchor
deriving DecidableEq, Repr

/-- A successfully fetched and parsed page, as read by the source. -/
structure FetchedPage where
  raw : String
  h1 : Option String
  contentArea : Option ContentArea
  pageAnchors : List Anchor
  navMatches : List NavAnchor
deriving Repr

/-- The triple `extract_content` hands back to `scrape_docs`:
`(title, text_content, all_links)`.  The two-element failure returns
`(None, [])` and `(None, [], [])` are both modelled as
`⟨none, [], []⟩`, exactly how `scrape_docs` normalizes them. -/
structure Extracted where
  title : Option String
  content : List String
  links : List String
deriving DecidableEq, Repr

/-! ## Generic extraction: text blocks (`scraper.py` lines 70-83) -/

/-- The tag names treated as headings. -/
def headingNames : List String := ["h1", "h2", "h3", "h4", "h5", "h6"]

/-- `int(elem.name[1])`: the digit after `h` in a heading tag name. -/
def headingLevel (name : String) : Nat :=
  match name.data with
  | _ :: d :: _ => d.toNat - '0'.toNat
  | _ => 0

/-- The re-emitted form of a heading:
`f"\n{'#' * level} {text}\n"`. -/
def heading_format (level : Nat) (text : String) : String :=
  "\n" ++ ⟨List.replicate level '#'⟩ ++ " " ++ text ++ "\n"

/-- One iteration of the text-block loop: strip, keep only text with
`text and len(text) > 10`, wrap headings, emit everything else
verbatim. -/
def block_of_element (e : Element) : Option String :=
  let text := pyStrip e.text
  if text ≠ "" ∧ text.length > 10 then
    if e.name ∈ headingNames then some (heading_format (headingLevel e.name) text)
    else some text
  else none

/-- The `text_content` accumulation loop of `extract_content`. -/
def text_blocks (elements : List Element) : List String :=
  elements.foldl
    (fun acc e =>
      match block_of_element e with
      | some b => acc ++ [b]
      | none => acc)
    []

/-! ## Generic extraction: link assembly (`scraper.py` lines 85-172) -/

/-- `next_keywords = ['next', '→', '>', 'continue', 'forward', 'siguiente']`. -/
def next_keywords : List String := ["next", "→", ">", "continue", "forward", "siguiente"]

/-- The `is_next_link` decision for a selector-matched anchor
(lines 143-162), including the Material-Design/footer special case. -/
def is_next_nav (a : NavAnchor) : Bool :=
  let link_text := pyLower (pyStrip a.text)
  let link_classes := pyLower a.classes
  let aria_label := pyLower a.ariaLabel
  (next_keywords.any (fun k => pyContains link_text k)
    || ["next", "forward"].any (fun k => pyContains link_classes k)
    || next_keywords.any (fun k => pyContains aria_label k)
    || pyContains aria_label "next")
  || (pyContains link_classes "md-footer__link--next"
    || pyContains link_classes "footer"
    || a.hasNextText)

/-- The `regular_links` loop: content-area anchors that are in scope and
not yet visited, in document order (no internal dedup). -/
def regular_links_of (base_url : String) (visited : List String)
    (anchors : List Anchor) : List String :=
  anchors.foldl
    (fun acc a =>
      if is_valid_docs_url base_url a.url = true ∧ a.url ∉ visited then acc ++ [a.url]
      else acc)
    []

/-- The `next_buttons` pass: whole-page anchors whose text satisfies
`text and 'next' in text.lower()`, kept when in scope, unvisited and not
already a regular link. -/
def next_button_links (base_url : String) (visited : List String)
    (pageAnchors : List Anchor) (regular_links : List String) : List String :=
  (pageAnchors.filter (fun a => a.text ≠ "" && pyContains (pyLower a.text) "next")).foldl
    (fun acc a =>
      if is_valid_docs_url base_url a.url = true ∧ a.url ∉ visited ∧ a.url ∉ regular_links
      then acc ++ [a.url] else acc)
    []

/-- The `nav_selectors` pass (lines 134-169): selector-matched anchors
are appended to `next_links` when in scope, unvisited, not a regular
link, not already collected, and classified as next/forward. -/
def nav_selector_links (base_url : String) (visited : List String)
    (navMatches : List NavAnchor) (regular_links next_links : List String) : List String :=
  navMatches.foldl
    (fun acc a =>
      if is_valid_docs_url base_url a.url = true ∧ a.url ∉ visited ∧ a.url ∉ regular_links
          ∧ a.url ∉ acc ∧ is_next_nav a = true
      then acc ++ [a.url] else acc)
    next_links

/-- `all_links = next_links + regular_links` for a content area. -/
def extract_links (base_url : String) (visited : List String) (f : FetchedPage)
    (ca : ContentArea) : List String :=
  let regular_links := regular_links_of base_url visited ca.anchors
  let next1 := next_button_links base_url visited f.pageAnchors regular_links
  let next_links := nav_selector_links base_url visited f.navMatches regular_links next1
  next_links ++ regular_links

/-! ## OpenAPI fallback (`extract_from_openapi`, lines 180-240) -/

/-- A parameter object of an operation, with the `.get` defaults of the
source (`name`/`description` default `''`, `required` default `False`). -/
structure OAParam where
  name : Option String
  description : Option String
  required : Option Bool
deriving DecidableEq, Repr

/-- An operation object (`details` when `isinstance(details, dict)`). -/
structure OAOperation where
  summary : Option String
  description : Option String
  parameters : List OAParam
deriving DecidableEq, Repr

/-- A value of the per-path method mapping: either an operation dict or
some non-dict JSON value, which the source skips. -/
inductive OAVal where
  | obj (op : OAOperation)
  | notDict
deriving DecidableEq, Repr

/-- The `info` object of a specification. -/
structure OAInfo where
  title : Option String
  description : Option String
deriving DecidableEq, Repr

/-- A parsed OpenAPI document: optional `info`, and `paths` as an
association list in document order (method lists likewise). -/
structure OASpec where
  info : Option OAInfo
  paths : List (String × List (String × OAVal))
deriving DecidableEq, Repr

/-- `f"{scheme}://{netloc}/api/v3/openapi.json"`. -/
def openapi_url (base_url : String) : String :=
  let parsed_base := urlparse base_url
  parsed_base.scheme ++ "://" ++ parsed_base.netloc ++ "/api/v3/openapi.json"

/-- `f"{scheme}://{netloc}/docs/v3/changelog"`. -/
def changelog_url (base_url : String) : String :=
  let parsed_base := urlparse base_url
  parsed_base.scheme ++ "://" ++ parsed_base.netloc ++ "/docs/v3/changelog"

/-- One parameter bullet: `f"- {name}{required_text}: {desc}"`. -/
def render_param (p : OAParam) : String :=
  let required_text := if p.required.getD false then " (required)" else ""
  "- " ++ p.name.getD "" ++ required_text ++ ": " ++ p.description.getD ""

/-- The blocks emitted for one method of a path (lines 211-230). -/
def render_method (path method : String) (d : OAOperation) : List String :=
  let summary := d.summary.getD ""
  let description := d.description.getD ""
  ["\n### " ++ pyUpper method ++ " " ++ path]
    ++ (if summary ≠ "" then [summary] else [])
    ++ (if description ≠ "" then [description] else [])
    ++ (if d.parameters ≠ [] then "\nParameters:" :: d.parameters.map render_param else [])

/-- The blocks emitted for one path entry (lines 207-230). -/
def render_path (pr : String × List (String × OAVal)) : List String :=
  ("\n## " ++ pr.1) ::
    (pr.2.map (fun m =>
        match m.2 with
        | .obj d => render_method pr.1 m.1 d
        | .notDict => [])).flatten

/-- `extract_from_openapi`: fetch the spec at the derived URL; on any
failure return the empty result; otherwise render title/description
(only when a description is present), then the paths, and return the
synthetic changelog link. -/
def extract_from_openapi (fetchSpec : String → Option OASpec) (base_url : String) :
    Extracted :=
  match fetchSpec (openapi_url base_url) with
  | none => ⟨none, [], []⟩
  | some spec =>
    let title := (spec.info.getD ⟨none, none⟩).title.getD "API Documentation"
    let description := (spec.info.getD ⟨none, none⟩).description.getD ""
    let head_blocks := if description ≠ "" then ["# " ++ title, description] else []
    let path_blocks := (spec.paths.map render_path).flatten
    ⟨some title, head_blocks ++ path_blocks, [changelog_url base_url]⟩

/-! ## `extract_content` (lines 27-178) -/

/-- The generic-strategy branch of `extract_content` for a page whose
content area was found: title from the first `h1` (else the URL),
filtered text blocks, and the assembled link list. -/
def generic_extract (base_url : String) (visited : List String) (url : String)
    (f : FetchedPage) (ca : ContentArea) : Extracted :=
  let title_text := match f.h1 with | some t => pyStrip t | none => url
  ⟨some title_text, text_blocks ca.elements, extract_links base_url visited f ca⟩

/-- `extract_content`: a failed fetch (transport error, non-2xx, or any
raised exception) yields the empty result; a page whose raw body
contains `<elements-api` is delegated wholesale to
`extract_from_openapi`; otherwise the generic strategy runs (a missing
content area yields the empty result). -/
def extract_content (fetchPage : String → Option FetchedPage)
    (fetchSpec : String → Option OASpec) (base_url : String) (visited : List String)
    (url : String) : Extracted :=
  match fetchPage url with
  | none => ⟨none, [], []⟩
  | some f =>
    if pyContains f.raw "<elements-api" then extract_from_openapi fetchSpec url
    else
      match f.contentArea with
      | none => ⟨none, [], []⟩
      | some ca => generic_extract base_url visited url f ca

/-! ## The crawl engine (`scrape_docs`, lines 246-302) -/

/-- A page record appended to `self.scraped_content`. -/
structure PageRec where
  url : String
  title : Option String
  content : List String
deriving DecidableEq, Repr

/-- The mutable state of the `scrape_docs` loop: the two queues, the
visited set (as a list, newest first), the accumulated records and the
page counter. -/
structure ScrapeState where
  pq : List String
  rq : List String
  visited : List String
  scraped : List PageRec
  pageCount : Nat
deriving DecidableEq, Repr

/-- The enqueue-time keyword test (line 288):
`any(indicator in link.lower() for indicator in ['next','plan','step','part'])`. -/
def keyword_in_link (link : String) : Bool :=
  ["next", "plan", "step", "part"].any (fun ind => pyContains (pyLower link) ind)

/-- The enqueue loop of `scrape_docs` (lines 285-294), starting at link
index `i`: unvisited links go to the priority queue when `i < 3` and the
URL contains a keyword, else to the regular queue.  Returns the two
append lists `(priority_adds, regular_adds)` in order. -/
def classify_links_from (visited : List String) : Nat → List String →
    List String × List String
  | _, [] => ([], [])
  | i, link :: rest =>
    let r := classify_links_from visited (i + 1) rest
    if link ∈ visited then r
    else if i < 3 ∧ keyword_in_link link then (link :: r.1, r.2)
    else (r.1, link :: r.2)

/-- The enqueue loop starting at index 0. -/
def classify_links (visited : List String) (links : List String) :
    List String × List String :=
  classify_links_from visited 0 links

/-- The body of one loop iteration after the pop (lines 261-301), acting
on the state whose queues already had `url` removed.  Returns the popped
URL tagged with whether it was actually fetched, and the next state.  An
already-visited URL is skipped without fetching (and without counting);
otherwise the URL is marked visited first, then extracted; the record
append and the link enqueue both happen only under `if content:`; the
page counter increments for every fetched page. -/
def processUrl (extract : String → Extracted) (url : String) (s : ScrapeState) :
    (String × Bool) × ScrapeState :=
  if url ∈ s.visited then ((url, false), s)
  else
    let visited' := url :: s.visited
    let e := extract url
    if e.content ≠ [] then
      let adds := classify_links visited' e.links
      ((url, true),
        { pq := s.pq ++ adds.1, rq := s.rq ++ adds.2, visited := visited',
          scraped := s.scraped ++ [⟨url, e.title, e.content⟩],
          pageCount := s.pageCount + 1 })
    else
      ((url, true),
        { pq := s.pq, rq := s.rq, visited := visited', scraped := s.scraped,
          pageCount := s.pageCount + 1 })

/-- One iteration of the `while` loop body: pop from the priority queue
if non-empty, else from the regular queue; `none` when both are empty
(the loop's frontier-exhausted exit). -/
def scrape_step (extract : String → Extracted) (s : ScrapeState) :
    Option ((String × Bool) × ScrapeState) :=
  match s.pq, s.rq with
  | [], [] => none
  | u :: pt, rq => some (processUrl extract u { s with pq := pt, rq := rq })
  | [], u :: rt => some (processUrl extract u { s with pq := [], rq := rt })

/-- The `scrape_docs` loop, fuel-indexed: while the budget is not
exhausted and some queue is non-empty, run one iteration; record the
trace of popped URLs (tagged with fetched/skipped) and the final state.
The fuel only caps the number of iterations; the loop's own two exit
conditions are tested exactly as in the source. -/
def scrape_run (extract : String → Extracted) (max_pages : Nat) :
    Nat → ScrapeState → List (String × Bool) × ScrapeState
  | 0, s => ([], s)
  | fuel + 1, s =>
    if s.pageCount < max_pages then
      match scrape_step extract s with
      | none => ([], s)
      | some (p, s') =>
        let r := scrape_run extract max_pages fuel s'
        (p :: r.1, r.2)
    else ([], s)

/-- The initial state of `scrape_docs`: the priority queue holds the
base URL, everything else is empty. -/
def init_state (base_url : String) : ScrapeState :=
  ⟨[base_url], [], [], [], 0⟩

/-- The URLs of a trace that were actually fetched. -/
def fetched_urls (tr : List (String × Bool)) : List String :=
  (tr.filter (fun p => p.2)).map (fun p => p.1)

/-- The URLs of a trace in pop order (fetched or skipped). -/
def popped_urls (tr : List (String × Bool)) : List String :=
  tr.map (fun p => p.1)

/-- `precedes P R tr`: every occurrence of `R` in `tr` is preceded by an
occurrence of `P`. -/
def precedes (P R : String) (tr : List String) : Prop :=
  ∀ i, tr.get? i = some R → ∃ j, j < i ∧ tr.get? j = some P

/-- The loop's exit condition: both queues empty or budget exhausted. -/
def loop_done (max_pages : Nat) (s : ScrapeState) : Prop :=
  (s.pq = [] ∧ s.rq = []) ∨ max_pages ≤ s.pageCount

/-! ## Declarative restatements and concrete instances used by the claims -/

/-- The noise filter and block formatting as the specification words
them: keep exactly the elements whose trimmed text is longer than 10
characters, re-emit surviving headings wrapped, all other kinds
verbatim, in document order. -/
def blocks_spec (elements : List Element) : List String :=
  (elements.filter (fun e => 10 < (pyStrip e.text).length)).map
    (fun e =>
      if e.name ∈ headingNames then heading_format (headingLevel e.name) (pyStrip e.text)
      else pyStrip e.text)

/-- Page A of the diamond link graph. -/
def dA : String := "https://h/d/a"

/-- Page B of the diamond link graph. -/
def dB : String := "https://h/d/b"

/-- Page C of the diamond link graph. -/
def dC : String := "https://h/d/c"

/-- Page D of the diamond link graph. -/
def dD : String := "https://h/d/d"

/-- The diamond seed graph of the specification's at-most-once test:
A links to B and C, B and C both link to D. -/
def diamond_extract : String → Extracted := fun u =>
  if u = dA then ⟨some "A", ["this is the body of page a"], [dB, dC]⟩
  else if u = dB then ⟨some "B", ["this is the body of page b"], [dD]⟩
  else if u = dC then ⟨some "C", ["this is the body of page c"], [dD]⟩
  else if u = dD then ⟨some "D", ["this is the body of page d"], []⟩
  else ⟨none, [], []⟩

/-- An extractor on which page A yields no content blocks but one
in-scope link to page B; page B has content. -/
def c3_extract : String → Extracted := fun u =>
  if u = dA then ⟨some "A", [], [dB]⟩
  else if u = dB then ⟨some "B", ["this is the body of page b"], []⟩
  else ⟨none, [], []⟩

/-- A specification fetcher returning a document whose `info.title` is
present but whose `info.description` is absent, with one path. -/
def c9_fetchSpec : String → Option OASpec := fun _ =>
  some ⟨some ⟨some "T", none⟩, [("/x", [])]⟩

/-- A specification fetcher returning a document with both a title and a
description. -/
def c9b_fetchSpec : String → Option OASpec := fun _ =>
  some ⟨some ⟨some "T", some "D"⟩, []⟩

/-- A specification fetcher returning a document with no `info` object. -/
def c10_fetchSpec : String → Option OASpec := fun _ =>
  some ⟨none, []⟩

/-- A fetched page whose raw body contains the `<elements-api` marker
while also offering perfectly usable generic HTML content. -/
def c4_page : FetchedPage :=
  ⟨"<html><elements-api apiDescriptionUrl=spec.json></html>",
    some "Ignored title",
    some ⟨[⟨"p", "generic body text of the page"⟩], [⟨"https://h/docs/x", "x"⟩]⟩,
    [⟨"https://h/docs/y", "Next page"⟩], []⟩

/-- A page fetcher that always returns `c4_page`. -/
def c4_fetchPage : String → Option FetchedPage := fun _ => some c4_page

/-- The page whose extraction yields the three links of the C2
scenario. -/
def c2A : String := "https://h/d/first"

/-- The priority link of the C2 scenario (listed first by the
extractor). -/
def c2P : String := "https://h/d/pp"

/-- First regular link of the C2 scenario. -/
def c2R1 : String := "https://h/d/r1"

/-- Second regular link of the C2 scenario. -/
def c2R2 : String := "https://h/d/r2"

/-- An extractor on which page `c2A` yields the priority link first and
then the two regular links, all at the same step. -/
def c2_extract : String → Extracted := fun u =>
  if u = c2A then ⟨some "S", ["the body text of the first page"], [c2P, c2R1, c2R2]⟩
  else ⟨some "X", ["the body text of another page"], []⟩

/-- Successor function of an unbounded link chain: every page links to
one strictly longer (hence never previously seen) URL. -/
def c6f (u : String) : String := u ++ "!"

/-- An extractor realizing an infinite link graph: every page has
non-empty content and links to exactly one fresh page. -/
def c6_extract : String → Extracted := fun u =>
  ⟨some u, ["the body text of this page"], [c6f u]⟩

end DocFetcher

namespace DocFetcher

/-! # Theorems -/

/-! ## String-primitive lemmas -/

theorem startsWithChars_iff (s p : List Char) :
    startsWithChars s p = true ↔ ∃ t, s = p ++ t := by
  induction p generalizing s with
  | nil => simp [startsWithChars]
  | cons d ds ih =>
    cases s with
    | nil => simp [startsWithChars]
    | cons c cs =>
      simp only [startsWithChars, Bool.and_eq_true, beq_iff_eq, ih, List.cons_append,
        List.cons.injEq]
      constructor
      · rintro ⟨rfl, t, rfl⟩; exact ⟨t, rfl, rfl⟩
      · rintro ⟨t, rfl, rfl⟩; exact ⟨rfl, t, rfl⟩

theorem pyStartswith_iff (s p : String) :
    pyStartswith s p = true ↔ ∃ t, s.data = p.data ++ t :=
  startsWithChars_iff s.data p.data

/-! ## Generic-extraction lemmas -/

theorem block_of_element_eq (e : Element) :
    block_of_element e =
      if 10 < (pyStrip e.text).length then
        some (if e.name ∈ headingNames then heading_format (headingLevel e.name) (pyStrip e.text)
          else pyStrip e.text)
      else none := by
  by_cases h : 10 < (pyStrip e.text).length
  · have hne : pyStrip e.text ≠ "" := by
      intro he
      rw [he] at h
      exact absurd h (by decide)
    by_cases hm : e.name ∈ headingNames <;> simp [block_of_element, h, hne, hm, gt_iff_lt]
  · simp [block_of_element, h, gt_iff_lt]

theorem text_blocks_aux (elements : List Element) : ∀ acc : List String,
    elements.foldl
        (fun acc e =>
          match block_of_element e with
          | some b => acc ++ [b]
          | none => acc)
        acc
      = acc ++ blocks_spec elements := by
  induction elements with
  | nil => intro acc; simp [blocks_spec]
  | cons e es ih =>
    intro acc
    rw [List.foldl_cons, block_of_element_eq]
    by_cases h : 10 < (pyStrip e.text).length
    · rw [if_pos h, ih]
      simp [blocks_spec, List.filter_cons, h, List.append_assoc]
    · rw [if_neg h, ih]
      simp [blocks_spec, List.filter_cons, h]

theorem text_blocks_eq_blocks_spec (elements : List Element) :
    text_blocks elements = blocks_spec elements := by
  have h := text_blocks_aux elements []
  simpa [text_blocks] using h

/-- C5: every candidate block is trimmed and discarded exactly when the
trimmed length is at most 10 (10 characters excluded, 11 included);
surviving headings are re-emitted wrapped in newlines with one `#` per
level and a space, all other kinds verbatim, in document order; the
level-3 formatting rule applied to `Setup` produces `"\n### Setup\n"`.
(`"Setup"` itself has trimmed length 5, so a page-level h3 `Setup` block
is removed by the noise filter; the round-trip conjunct is about the
heading-formatting rule, exactly as the claim words it.) -/
theorem claim_C5_noise_filter_and_formatting :
    (∀ elements : List Element, text_blocks elements = blocks_spec elements)
    ∧ text_blocks [⟨"p", " 0123456789 "⟩] = []
    ∧ text_blocks [⟨"p", " 0123456789a "⟩] = ["0123456789a"]
    ∧ heading_format 3 "Setup" = "\n### Setup\n"
    ∧ text_blocks [⟨"h2", "Installation"⟩, ⟨"td", "short"⟩, ⟨"pre", "x = compute_all(y)"⟩]
        = ["\n## Installation\n", "x = compute_all(y)"] :=
  ⟨text_blocks_eq_blocks_spec, by decide, by decide, by decide, by decide⟩

/-! ## Scope-filter lemmas -/

/-- C8: the scope predicate is a pure boolean function of the two URLs
alone (it takes no crawl state at all in this embedding, mirroring the
source method which reads only `self.base_url`): it accepts exactly the
candidates whose parsed netloc equals the base URL's netloc and whose
parsed path extends the base URL's path; unparseable garbage parses
leniently (as CPython's `urlparse` does) to an empty netloc and is
therefore out of scope rather than an error. -/
theorem claim_C8_scope_predicate :
    (∀ base_url url : String,
        is_valid_docs_url base_url url = true ↔
          ((urlparse url).netloc = (urlparse base_url).netloc
            ∧ ∃ t, (urlparse url).path.data = (urlparse base_url).path.data ++ t))
    ∧ is_valid_docs_url "https://h/docs/" "not a url" = false
    ∧ is_valid_docs_url "https://h/docs/" "%%%::garbage::%%%" = false
    ∧ is_valid_docs_url "https://h/docs/" "" = false
    ∧ is_valid_docs_url "https://h/docs/" "https://h/other/" = false
    ∧ is_valid_docs_url "https://h/docs/" "https://evil/docs/" = false := by
  refine ⟨fun base_url url => ?_, by decide, by decide, by decide, by decide, by decide⟩
  simp [is_valid_docs_url, Bool.and_eq_true, beq_iff_eq, pyStartswith_iff]

/-- Witness for C8 applied at a concrete in-scope candidate. -/
theorem claim_C8_witness :
    is_valid_docs_url "https://h/docs/" "https://h/docs/guide" = true :=
  (claim_C8_scope_predicate.1 "https://h/docs/" "https://h/docs/guide").mpr
    ⟨by decide, "guide".data, by decide⟩

/-! ## The `<elements-api` gate (C4) -/

/-- C4: the literal marker `<elements-api` in the raw body is the sole
strategy selector: when present, `extract_content` returns exactly
`extract_from_openapi`'s result, which reads nothing from the page's
own parse tree and consults only the specification resource at
`scheme://netloc/api/v3/openapi.json`, a URL built from the page URL's
scheme and netloc alone; when absent, the generic strategy runs. -/
theorem claim_C4_elements_api_gate :
    (∀ (fp : String → Option FetchedPage) (fs : String → Option OASpec)
        (base_url : String) (visited : List String) (url : String) (f : FetchedPage),
        fp url = some f → pyContains f.raw "<elements-api" = true →
          extract_content fp fs base_url visited url = extract_from_openapi fs url)
    ∧ (∀ (fp : String → Option FetchedPage) (fs : String → Option OASpec)
        (base_url : String) (visited : List String) (url : String) (f : FetchedPage),
        fp url = some f → pyContains f.raw "<elements-api" = false →
          extract_content fp fs base_url visited url =
            match f.contentArea with
            | none => ⟨none, [], []⟩
            | some ca => generic_extract base_url visited url f ca)
    ∧ (∀ (fs₁ fs₂ : String → Option OASpec) (url : String),
        fs₁ (openapi_url url) = fs₂ (openapi_url url) →
          extract_from_openapi fs₁ url = extract_from_openapi fs₂ url)
    ∧ (∀ u₁ u₂ : String, (urlparse u₁).scheme = (urlparse u₂).scheme →
        (urlparse u₁).netloc = (urlparse u₂).netloc → openapi_url u₁ = openapi_url u₂)
    ∧ (∀ u : String, openapi_url u =
        (urlparse u).scheme ++ "://" ++ (urlparse u).netloc ++ "/api/v3/openapi.json") := by
  refine ⟨?_, ?_, ?_, ?_, fun u => rfl⟩
  · intro fp fs base_url visited url f h1 h2
    simp [extract_content, h1, h2]
  · intro fp fs base_url visited url f h1 h2
    simp [extract_content, h1, h2]
  · intro fs₁ fs₂ url h
    unfold extract_from_openapi
    rw [h]
  · intro u₁ u₂ h1 h2
    simp only [openapi_url]
    rw [h1, h2]

/-- Witness for C4: a page carrying the marker is handled by the
specification fallback even though it has generic content. -/
theorem claim_C4_witness :
    extract_content c4_fetchPage c9_fetchSpec "https://h/docs/" [] "https://h/docs/p"
      = extract_from_openapi c9_fetchSpec "https://h/docs/p" :=
  claim_C4_elements_api_gate.1 c4_fetchPage c9_fetchSpec "https://h/docs/" []
    "https://h/docs/p" c4_page rfl (by decide)

/-! ## OpenAPI rendering (C9, C10) -/

/-- Counterexample to C9: with `info.title = "T"` present but no
`info.description`, the rendered blocks do NOT begin with the title as a
level-1 heading — no `"# T"` block is emitted at all, and the output
starts directly with the first path's level-2 heading. -/
theorem claim_C9_counterexample :
    extract_from_openapi c9_fetchSpec "https://h/docs/p"
        = ⟨some "T", ["\n## /x"], ["https://h/docs/v3/changelog"]⟩
    ∧ "# T" ∉ (extract_from_openapi c9_fetchSpec "https://h/docs/p").content := by
  constructor <;> decide

/-- C9 as amended: the title heading and the description are emitted
together, and only when the description is present and non-empty (the
source guards both appends with `if description:`); otherwise the
blocks begin directly with the per-path output.  The outbound link set
is exactly the synthetic changelog URL in every case. -/
theorem claim_C9_amended (fs : String → Option OASpec) (u : String) (spec : OASpec)
    (h : fs (openapi_url u) = some spec) :
    (extract_from_openapi fs u).links = [changelog_url u]
    ∧ ((spec.info.getD ⟨none, none⟩).description.getD "" ≠ "" →
        (extract_from_openapi fs u).content =
          ("# " ++ (spec.info.getD ⟨none, none⟩).title.getD "API Documentation")
            :: (spec.info.getD ⟨none, none⟩).description.getD ""
            :: (spec.paths.map render_path).flatten)
    ∧ ((spec.info.getD ⟨none, none⟩).description.getD "" = "" →
        (extract_from_openapi fs u).content = (spec.paths.map render_path).flatten) := by
  unfold extract_from_openapi
  rw [h]
  refine ⟨rfl, fun hd => ?_, fun hd => ?_⟩ <;> simp [hd]

/-- Witness for the amended C9 at a document with both title and
description present. -/
theorem claim_C9_amended_witness :
    (extract_from_openapi c9b_fetchSpec "https://h/docs/p").links
        = ["https://h/docs/v3/changelog"]
    ∧ (extract_from_openapi c9b_fetchSpec "https://h/docs/p").content = ["# T", "D"] := by
  have h := claim_C9_amended c9b_fetchSpec "https://h/docs/p"
    ⟨some ⟨some "T", some "D"⟩, []⟩ rfl
  exact ⟨h.1.trans (by decide), (h.2.1 (by decide)).trans (by decide)⟩

/-- C10: when the fetched specification parses but `info.title` is
missing, the fallback titles the page `"API Documentation"`; when
`info.title` is present its value is used; and the title returned by
extraction is exactly the title stored in the `PageRecord` the engine
appends. -/
theorem claim_C10_default_title :
    (∀ (fs : String → Option OASpec) (u : String) (spec : OASpec),
        fs (openapi_url u) = some spec → (spec.info.getD ⟨none, none⟩).title = none →
          (extract_from_openapi fs u).title = some "API Documentation")
    ∧ (∀ (fs : String → Option OASpec) (u : String) (spec : OASpec) (t : String),
        fs (openapi_url u) = some spec → (spec.info.getD ⟨none, none⟩).title = some t →
          (extract_from_openapi fs u).title = some t)
    ∧ (∀ (e : String → Extracted) (url : String) (s : ScrapeState),
        url ∉ s.visited → (e url).content ≠ [] →
          (processUrl e url s).2.scraped
            = s.scraped ++ [⟨url, (e url).title, (e url).content⟩]) := by
  refine ⟨?_, ?_, ?_⟩
  · intro fs u spec h ht
    unfold extract_from_openapi
    rw [h]
    simp [ht]
  · intro fs u spec t h ht
    unfold extract_from_openapi
    rw [h]
    simp [ht]
  · intro e url s hv hc
    simp [processUrl, hv, hc]

/-- Witness for C10: a document with no `info` object is titled
`"API Documentation"`. -/
theorem claim_C10_witness :
    (extract_from_openapi c10_fetchSpec "https://h/docs/p").title
      = some "API Documentation" :=
  claim_C10_default_title.1 c10_fetchSpec "https://h/docs/p" ⟨none, []⟩ rfl rfl

/-! ## Crawl-engine lemmas -/

theorem processUrl_fst (e : String → Extracted) (u : String) (s : ScrapeState) :
    (processUrl e u s).1.1 = u := by
  by_cases hv : u ∈ s.visited
  · simp [processUrl, hv]
  · simp only [processUrl, if_neg hv]
    split <;> rfl

theorem processUrl_mem {u : String} {s : ScrapeState} (e : String → Extracted)
    (h : u ∈ s.visited) : processUrl e u s = ((u, false), s) := by
  simp [processUrl, h]

theorem processUrl_not_mem_fst {u : String} {s : ScrapeState} (e : String → Extracted)
    (h : u ∉ s.visited) : (processUrl e u s).1 = (u, true) := by
  simp only [processUrl, if_neg h]
  split <;> rfl

theorem processUrl_not_mem_visited {u : String} {s : ScrapeState} (e : String → Extracted)
    (h : u ∉ s.visited) : (processUrl e u s).2.visited = u :: s.visited := by
  simp only [processUrl, if_neg h]
  split <;> rfl

theorem classify_links_from_keyword {v : List String} :
    ∀ (i : Nat) (links : List String) (l : String),
      l ∈ (classify_links_from v i links).1 → keyword_in_link l = true := by
  intro i links
  induction links generalizing i with
  | nil => intro l hl; simp [classify_links_from] at hl
  | cons x xs ih =>
    intro l hl
    by_cases hx : x ∈ v
    · exact ih (i + 1) l (by simpa [classify_links_from, hx] using hl)
    · by_cases hk : i < 3 ∧ keyword_in_link x
      · rcases (by simpa [classify_links_from, hx, hk] using hl : l = x ∨ _) with rfl | hmem
        · exact hk.2
        · exact ih (i + 1) l hmem
      · exact ih (i + 1) l (by simpa [classify_links_from, hx, hk] using hl)

theorem classify_links_keyword {v : List String} {links : List String} {l : String}
    (h : l ∈ (classify_links v links).1) : keyword_in_link l = true :=
  classify_links_from_keyword 0 links l h

theorem processUrl_queues (e : String → Extracted) (u : String) (s : ScrapeState) :
    ∃ ps rs : List String,
      (∀ l ∈ ps, keyword_in_link l = true)
      ∧ (processUrl e u s).2.pq = s.pq ++ ps
      ∧ (processUrl e u s).2.rq = s.rq ++ rs := by
  by_cases hv : u ∈ s.visited
  · exact ⟨[], [], by simp, by simp [processUrl_mem e hv], by simp [processUrl_mem e hv]⟩
  · simp only [processUrl, if_neg hv]
    split
    · exact ⟨(classify_links (u :: s.visited) (e u).links).1,
        (classify_links (u :: s.visited) (e u).links).2,
        fun l hl => classify_links_keyword hl, rfl, rfl⟩
    · exact ⟨[], [], by simp, by simp, by simp⟩

theorem scrape_run_not_lt {e : String → Extracted} {mp : Nat} {s : ScrapeState}
    (n : Nat) (h : ¬ s.pageCount < mp) : scrape_run e mp (n + 1) s = ([], s) := by
  simp [scrape_run, h]

theorem scrape_run_step {e : String → Extracted} {mp : Nat} {s : ScrapeState}
    {p : String × Bool} {s' : ScrapeState} (n : Nat) (hb : s.pageCount < mp)
    (hs : scrape_step e s = some (p, s')) :
    scrape_run e mp (n + 1) s
      = (p :: (scrape_run e mp n s').1, (scrape_run e mp n s').2) := by
  simp [scrape_run, hb, hs]

theorem fetched_urls_nil : fetched_urls [] = [] := rfl

theorem fetched_urls_cons_true (u : String) (tr : List (String × Bool)) :
    fetched_urls ((u, true) :: tr) = u :: fetched_urls tr := by
  simp [fetched_urls]

theorem fetched_urls_cons_false (u : String) (tr : List (String × Bool)) :
    fetched_urls ((u, false) :: tr) = fetched_urls tr := by
  simp [fetched_urls]

/-- Every `some` result of `scrape_step` is `processUrl` applied to some
popped URL and a state with the same visited set. -/
theorem scrape_step_shape (e : String → Extracted) (s : ScrapeState)
    {x : (String × Bool) × ScrapeState} (h : scrape_step e s = some x) :
    ∃ (u : String) (s₁ : ScrapeState), s₁.visited = s.visited ∧ x = processUrl e u s₁ := by
  rcases hpq : s.pq with _ | ⟨u, pt⟩
  · rcases hrq : s.rq with _ | ⟨u, rt⟩
    · simp [scrape_step, hpq, hrq] at h
    · refine ⟨u, { s with pq := [], rq := rt }, rfl, ?_⟩
      simp only [scrape_step, hpq, hrq] at h
      exact (Option.some.injEq _ _ ▸ h).symm
  · refine ⟨u, { s with pq := pt, rq := s.rq }, rfl, ?_⟩
    simp only [scrape_step, hpq] at h
    exact (Option.some.injEq _ _ ▸ h).symm

/-- Core safety facts of the loop: the fetch trace never repeats a URL,
fetched URLs were unvisited at the start, and the visited set only
grows. -/
theorem scrape_run_fetched (e : String → Extracted) (mp : Nat) :
    ∀ (fuel : Nat) (s : ScrapeState),
      (fetched_urls (scrape_run e mp fuel s).1).Nodup
      ∧ (∀ u ∈ fetched_urls (scrape_run e mp fuel s).1, u ∉ s.visited)
      ∧ s.visited ⊆ (scrape_run e mp fuel s).2.visited := by
  intro fuel
  induction fuel with
  | zero =>
    intro s
    refine ⟨by simp [scrape_run, fetched_urls], by simp [scrape_run, fetched_urls], ?_⟩
    simp [scrape_run]
  | succ n ih =>
    intro s
    by_cases hb : s.pageCount < mp
    · cases hstep : scrape_step e s with
      | none =>
        refine ⟨?_, ?_, ?_⟩ <;> simp [scrape_run, hb, hstep, fetched_urls]
      | some x =>
        obtain ⟨u, s₁, hvis₁, rfl⟩ := scrape_step_shape e s hstep
        have hstep' : scrape_step e s
            = some ((processUrl e u s₁).1, (processUrl e u s₁).2) := hstep
        have hrun := scrape_run_step (e := e) n hb hstep'
        by_cases hv : u ∈ s₁.visited
        · rw [processUrl_mem e hv] at hrun
          rw [hrun, fetched_urls_cons_false]
          have h3 := ih s₁
          exact ⟨h3.1, fun x hx => hvis₁ ▸ h3.2.1 x hx, fun x hx => h3.2.2 (hvis₁ ▸ hx)⟩
        · have hfst := processUrl_not_mem_fst e hv
          have hvis := processUrl_not_mem_visited e hv
          rw [hrun, hfst, fetched_urls_cons_true]
          have h3 := ih (processUrl e u s₁).2
          refine ⟨?_, ?_, ?_⟩
          · refine List.nodup_cons.mpr ⟨fun hmem => ?_, h3.1⟩
            exact h3.2.1 u hmem (by simp [hvis])
          · intro x hx
            rcases List.mem_cons.mp hx with rfl | hmem
            · exact fun hmem' => hv (hvis₁ ▸ hmem')
            · intro hxs
              exact h3.2.1 x hmem (by rw [hvis]; exact List.mem_cons_of_mem u (hvis₁ ▸ hxs))
          · intro x hx
            exact h3.2.2 (by rw [hvis]; exact List.mem_cons_of_mem u (hvis₁ ▸ hx))
    · refine ⟨?_, ?_, ?_⟩ <;> simp [scrape_run_not_lt n hb, fetched_urls]

theorem scrape_step_isSome (e : String → Extracted) (s : ScrapeState)
    (hq : s.pq ≠ [] ∨ s.rq ≠ []) : ∃ x, scrape_step e s = some x := by
  rcases hpq : s.pq with _ | ⟨u, pt⟩
  · rcases hrq : s.rq with _ | ⟨u, rt⟩
    · rcases hq with h | h
      · exact absurd hpq h
      · exact absurd hrq h
    · exact ⟨processUrl e u { s with pq := [], rq := rt }, by simp [scrape_step, hpq, hrq]⟩
  · exact ⟨processUrl e u { s with pq := pt, rq := s.rq }, by simp [scrape_step, hpq]⟩

/-- While the budget remains and some queue is non-empty, the loop
performs another iteration: it never halts because of a failed page. -/
theorem scrape_run_continues (e : String → Extracted) (mp fuel : Nat) (s : ScrapeState)
    (hb : s.pageCount < mp) (hq : s.pq ≠ [] ∨ s.rq ≠ []) :
    (scrape_run e mp (fuel + 1) s).1 ≠ [] := by
  obtain ⟨x, hx⟩ := scrape_step_isSome e s hq
  have hx' : scrape_step e s = some (x.1, x.2) := hx
  rw [scrape_run_step fuel hb hx']
  simp

theorem popped_urls_cons (p : String × Bool) (tr : List (String × Bool)) :
    popped_urls (p :: tr) = p.1 :: popped_urls tr := rfl

theorem precedes_nil (P R : String) : precedes P R [] := by
  intro i hi
  simp at hi

theorem precedes_of_head {P R : String} (tr : List String) (h : P ≠ R) :
    precedes P R (P :: tr) := by
  intro i hi
  cases i with
  | zero =>
    rw [List.get?_cons_zero] at hi
    exact absurd (Option.some.inj hi) h
  | succ k => exact ⟨0, Nat.succ_pos k, rfl⟩

theorem precedes_cons {P R : String} {tr : List String} (x : String) (hx : x ≠ R)
    (h : precedes P R tr) : precedes P R (x :: tr) := by
  intro i hi
  cases i with
  | zero =>
    rw [List.get?_cons_zero] at hi
    exact absurd (Option.some.inj hi) hx
  | succ k =>
    rw [List.get?_cons_succ] at hi
    obtain ⟨j, hj, hPj⟩ := h k hi
    exact ⟨j + 1, Nat.succ_lt_succ hj, by rw [List.get?_cons_succ]; exact hPj⟩

/-- Frontier ordering: if `P` sits in the priority queue, or sits in the
regular queue with no occurrence of `R` ahead of it, while `R` is not in
the priority queue, has no enqueue keyword in its URL (so it can never
be appended to the priority queue later), and differs from `P`, then any
pop of `R` during the rest of the run is preceded by a pop of `P`. -/
theorem pop_order (e : String → Extracted) (mp : Nat) :
    ∀ (fuel : Nat) (s : ScrapeState) (P R : String), P ≠ R →
      keyword_in_link R = false →
      R ∉ s.pq →
      (P ∈ s.pq ∨ ∃ a b, s.rq = a ++ P :: b ∧ R ∉ a) →
      precedes P R (popped_urls (scrape_run e mp fuel s).1) := by
  intro fuel
  induction fuel with
  | zero =>
    intro s P R hPR hkw hRpq hP
    exact precedes_nil P R
  | succ n ih =>
    intro s P R hPR hkw hRpq hP
    by_cases hb : s.pageCount < mp
    · rcases hpq : s.pq with _ | ⟨u, pt⟩
      · rcases hrq : s.rq with _ | ⟨u, rt⟩
        · have hnone : scrape_run e mp (n + 1) s = ([], s) := by
            simp [scrape_run, hb, scrape_step, hpq, hrq]
          rw [hnone]
          exact precedes_nil P R
        · rcases hP with hPpq | ⟨a, b, hsplit, hRa⟩
          · rw [hpq] at hPpq
            simp at hPpq
          · have hstep : scrape_step e s
                = some ((processUrl e u { s with pq := [], rq := rt }).1,
                        (processUrl e u { s with pq := [], rq := rt }).2) := by
              simp [scrape_step, hpq, hrq]
            have hrun := scrape_run_step n hb hstep
            rw [hrun, popped_urls_cons, processUrl_fst]
            by_cases huP : u = P
            · subst huP
              exact precedes_of_head _ hPR
            · rw [hrq] at hsplit
              rcases a with _ | ⟨a₀, a'⟩
              · rw [List.nil_append] at hsplit
                exact absurd (List.head_eq_of_cons_eq hsplit) huP
              · rw [List.cons_append] at hsplit
                have hu : u = a₀ := List.head_eq_of_cons_eq hsplit
                have hrt : rt = a' ++ P :: b := List.tail_eq_of_cons_eq hsplit
                have huR : u ≠ R := fun h =>
                  hRa (by rw [← h, hu]; exact List.mem_cons_self a₀ a')
                obtain ⟨ps, rs, hpsk, hpq2, hrq2⟩ :=
                  processUrl_queues e u { s with pq := [], rq := rt }
                refine precedes_cons u huR
                  (ih (processUrl e u { s with pq := [], rq := rt }).2 P R hPR hkw ?_
                    (Or.inr ⟨a', b ++ rs, ?_, fun hmem => hRa (List.mem_cons_of_mem a₀ hmem)⟩))
                · rw [hpq2]
                  simp only [List.nil_append]
                  intro hmem
                  exact absurd (hpsk R hmem) (by rw [hkw]; exact Bool.false_ne_true)
                · rw [hrq2]
                  show rt ++ rs = a' ++ P :: (b ++ rs)
                  rw [hrt, List.append_assoc, List.cons_append]
      · have hstep : scrape_step e s
            = some ((processUrl e u { s with pq := pt, rq := s.rq }).1,
                    (processUrl e u { s with pq := pt, rq := s.rq }).2) := by
          simp [scrape_step, hpq]
        have hrun := scrape_run_step n hb hstep
        rw [hrun, popped_urls_cons, processUrl_fst]
        by_cases huP : u = P
        · subst huP
          exact precedes_of_head _ hPR
        · have huR : u ≠ R := by
            rw [hpq] at hRpq
            exact fun h => hRpq (h ▸ List.mem_cons_self u pt)
          obtain ⟨ps, rs, hpsk, hpq2, hrq2⟩ :=
            processUrl_queues e u { s with pq := pt, rq := s.rq }
          refine precedes_cons u huR
            (ih (processUrl e u { s with pq := pt, rq := s.rq }).2 P R hPR hkw ?_ ?_)
          · rw [hpq2]
            show R ∉ pt ++ ps
            rw [hpq] at hRpq
            intro hmem
            rcases List.mem_append.mp hmem with h1 | h2
            · exact hRpq (List.mem_cons_of_mem u h1)
            · exact absurd (hpsk R h2) (by rw [hkw]; exact Bool.false_ne_true)
          · rcases hP with hPpq | ⟨a, b, hsplit, hRa⟩
            · left
              rw [hpq2]
              rw [hpq] at hPpq
              rcases List.mem_cons.mp hPpq with h1 | h2
              · exact absurd h1.symm huP
              · exact List.mem_append_left ps h2
            · right
              refine ⟨a, b ++ rs, ?_, hRa⟩
              rw [hrq2]
              show s.rq ++ rs = a ++ P :: (b ++ rs)
              rw [hsplit, List.append_assoc, List.cons_append]
    · rw [scrape_run_not_lt n hb]
      exact precedes_nil P R

/-! ## Claims about the crawl engine -/

/-- C1: each URL is fetched at most once in any crawl run (the fetch
trace has no duplicates, for every extractor, budget, fuel and start
state); a URL is added to the visited set at the moment it is popped
(the enqueue loop never touches `visited`); a popped URL that is already
visited is skipped without fetching and without any state change; and on
the diamond graph A→B, A→C, B→D, C→D the URL D occupies two regular
queue slots simultaneously after three fetches, yet is fetched exactly
once (popped twice, the second pop a skip). -/
theorem claim_C1_at_most_once_fetch :
    (∀ (e : String → Extracted) (mp fuel : Nat) (s : ScrapeState),
        (fetched_urls (scrape_run e mp fuel s).1).Nodup)
    ∧ (∀ (e : String → Extracted) (url : String) (s : ScrapeState),
        url ∈ s.visited → processUrl e url s = ((url, false), s))
    ∧ (∀ (e : String → Extracted) (url : String) (s : ScrapeState),
        url ∉ s.visited → (processUrl e url s).2.visited = url :: s.visited)
    ∧ (scrape_run diamond_extract 10 3 (init_state dA)).2.rq = [dD, dD]
    ∧ popped_urls (scrape_run diamond_extract 10 10 (init_state dA)).1
        = [dA, dB, dC, dD, dD]
    ∧ (fetched_urls (scrape_run diamond_extract 10 10 (init_state dA)).1).count dD = 1 := by
  refine ⟨fun e mp fuel s => (scrape_run_fetched e mp fuel s).1,
    fun e url s h => processUrl_mem e h,
    fun e url s h => processUrl_not_mem_visited e h, ?_, ?_, ?_⟩ <;> decide

/-- Witness for C1: the skip and visited-marking parts applied at
concrete inputs. -/
theorem claim_C1_witness :
    processUrl diamond_extract dD ⟨[], [], [dD], [], 4⟩ = ((dD, false), ⟨[], [], [dD], [], 4⟩)
    ∧ (processUrl diamond_extract dD ⟨[], [], [], [], 0⟩).2.visited = [dD] :=
  ⟨claim_C1_at_most_once_fetch.2.1 diamond_extract dD ⟨[], [], [dD], [], 4⟩ (by decide),
    claim_C1_at_most_once_fetch.2.2.1 diamond_extract dD ⟨[], [], [], [], 0⟩ (by decide)⟩

/-- Counterexample to C3: on a page (A) whose extraction yields no
blocks but one in-scope link (to B), the link is NOT enqueued — the
enqueue sits under the same `if content:` guard as the record append —
so the crawl ends after A with B never entering the frontier, contrary
to the claim that link enqueuing happens independently of content. -/
theorem claim_C3_counterexample :
    scrape_run c3_extract 10 10 (init_state dA)
        = ([(dA, true)], ⟨[], [], [dA], [], 1⟩)
    ∧ dB ∉ popped_urls (scrape_run c3_extract 10 10 (init_state dA)).1
    ∧ (c3_extract dA).links = [dB] ∧ (c3_extract dA).content = [] := by
  refine ⟨?_, ?_, ?_, ?_⟩ <;> decide

/-- C3 as amended: in every iteration, when the extracted block sequence
is non-empty the classified links are enqueued AND a PageRecord is
appended, both under the same non-emptiness check; when it is empty the
iteration only marks the URL visited and counts it — the discovered
links are dropped, not enqueued. -/
theorem claim_C3_amended (e : String → Extracted) (url : String) (s : ScrapeState)
    (hv : url ∉ s.visited) :
    ((e url).content ≠ [] →
        processUrl e url s = ((url, true),
          ⟨s.pq ++ (classify_links (url :: s.visited) (e url).links).1,
            s.rq ++ (classify_links (url :: s.visited) (e url).links).2,
            url :: s.visited,
            s.scraped ++ [⟨url, (e url).title, (e url).content⟩],
            s.pageCount + 1⟩))
    ∧ ((e url).content = [] →
        processUrl e url s
          = ((url, true), ⟨s.pq, s.rq, url :: s.visited, s.scraped, s.pageCount + 1⟩)) := by
  constructor
  · intro hc
    simp [processUrl, hv, hc]
  · intro hc
    simp [processUrl, hv, hc]

/-- Witness for the amended C3: the contentless page A is marked visited
and counted, but its link to B is dropped. -/
theorem claim_C3_amended_witness :
    processUrl c3_extract dA ⟨[], [], [], [], 0⟩ = ((dA, true), ⟨[], [], [dA], [], 1⟩) := by
  have h := (claim_C3_amended c3_extract dA ⟨[], [], [], [], 0⟩ (by decide)).2 (by decide)
  exact h

/-- C7: a failed page fetch (transport error, non-2xx, any exception)
yields the empty extraction result, as does a marker page whose
specification resource fails to fetch or parse; a failed page still goes
through the ordinary bookkeeping (visited, counted, no record, no
enqueue); the visited set only grows, a URL once visited is never
fetched again later in the run even if rediscovered; and the loop keeps
iterating after a failure whenever budget and frontier remain. -/
theorem claim_C7_error_handling :
    (∀ (fp : String → Option FetchedPage) (fs : String → Option OASpec)
        (base_url : String) (visited : List String) (url : String),
        fp url = none → extract_content fp fs base_url visited url = ⟨none, [], []⟩)
    ∧ (∀ (fp : String → Option FetchedPage) (fs : String → Option OASpec)
        (base_url : String) (visited : List String) (url : String) (f : FetchedPage),
        fp url = some f → pyContains f.raw "<elements-api" = true →
          fs (openapi_url url) = none →
          extract_content fp fs base_url visited url = ⟨none, [], []⟩)
    ∧ (∀ (e : String → Extracted) (url : String) (s : ScrapeState),
        url ∉ s.visited → (e url).content = [] →
          (processUrl e url s).2.visited = url :: s.visited
          ∧ (processUrl e url s).2.pq = s.pq
          ∧ (processUrl e url s).2.rq = s.rq
          ∧ (processUrl e url s).2.scraped = s.scraped)
    ∧ (∀ (e : String → Extracted) (mp fuel : Nat) (s : ScrapeState),
        s.visited ⊆ (scrape_run e mp fuel s).2.visited)
    ∧ (∀ (e : String → Extracted) (mp fuel : Nat) (s : ScrapeState) (u : String),
        u ∈ s.visited → u ∉ fetched_urls (scrape_run e mp fuel s).1)
    ∧ (∀ (e : String → Extracted) (mp fuel : Nat) (s : ScrapeState),
        s.pageCount < mp → (s.pq ≠ [] ∨ s.rq ≠ []) →
          (scrape_run e mp (fuel + 1) s).1 ≠ []) := by
  refine ⟨?_, ?_, ?_, ?_, ?_, ?_⟩
  · intro fp fs b v url h
    simp [extract_content, h]
  · intro fp fs b v url f h1 h2 h3
    simp [extract_content, h1, h2, extract_from_openapi, h3]
  · intro e url s hv hc
    refine ⟨?_, ?_, ?_, ?_⟩ <;> simp [processUrl, hv, hc]
  · exact fun e mp fuel s => (scrape_run_fetched e mp fuel s).2.2
  · exact fun e mp fuel s u hu hmem => (scrape_run_fetched e mp fuel s).2.1 u hmem hu
  · exact scrape_run_continues

theorem processUrl_content (e : String → Extracted) (u : String) (s : ScrapeState)
    (hv : u ∉ s.visited) (hc : (e u).content ≠ []) :
    processUrl e u s = ((u, true),
      ⟨s.pq ++ (classify_links (u :: s.visited) (e u).links).1,
        s.rq ++ (classify_links (u :: s.visited) (e u).links).2,
        u :: s.visited, s.scraped ++ [⟨u, (e u).title, (e u).content⟩],
        s.pageCount + 1⟩) := by
  simp [processUrl, hv, hc]

theorem classify_three {v : List String} {P R1 R2 : String}
    (hP : P ∉ v) (h1 : R1 ∉ v) (h2 : R2 ∉ v)
    (hk1 : keyword_in_link R1 = false) (hk2 : keyword_in_link R2 = false) :
    classify_links v [P, R1, R2]
      = if keyword_in_link P then ([P], [R1, R2]) else ([], [P, R1, R2]) := by
  by_cases hkP : keyword_in_link P <;>
    simp [classify_links, classify_links_from, hP, h1, h2, hk1, hk2, hkP]

/-- C2: if the page popped at some step yields, with non-empty content,
the link list `[P, R1, R2]` — `P` listed first because the extractor
emits priority (for instance `next`-anchor-text) links ahead of regular
ones — where `R1` and `R2` are classified Regular at enqueue time (no
`next`/`plan`/`step`/`part` keyword in their URLs) and are fresh
(unvisited, not already queued), then in the rest of the run every pop
of `R1` or of `R2` is preceded by a pop of `P`, whichever queue `P`
itself lands in. -/
theorem claim_C2_priority_link_popped_first
    (e : String → Extracted) (mp fuel : Nat) (s₀ : ScrapeState)
    (A P R1 R2 : String)
    (hlinks : (e A).links = [P, R1, R2]) (hcontent : (e A).content ≠ [])
    (hA : A ∉ s₀.visited)
    (hPv : P ∉ s₀.visited) (hPA : P ≠ A)
    (hR1v : R1 ∉ s₀.visited) (hR1A : R1 ≠ A)
    (hR2v : R2 ∉ s₀.visited) (hR2A : R2 ≠ A)
    (hPR1 : P ≠ R1) (hPR2 : P ≠ R2)
    (hkw1 : keyword_in_link R1 = false) (hkw2 : keyword_in_link R2 = false)
    (hq1 : R1 ∉ s₀.pq) (hq2 : R2 ∉ s₀.pq) (hr1 : R1 ∉ s₀.rq) (hr2 : R2 ∉ s₀.rq) :
    precedes P R1 (popped_urls (scrape_run e mp fuel (processUrl e A s₀).2).1)
    ∧ precedes P R2 (popped_urls (scrape_run e mp fuel (processUrl e A s₀).2).1) := by
  have hPn : P ∉ A :: s₀.visited := by simp [List.mem_cons, hPA, hPv]
  have hR1n : R1 ∉ A :: s₀.visited := by simp [List.mem_cons, hR1A, hR1v]
  have hR2n : R2 ∉ A :: s₀.visited := by simp [List.mem_cons, hR2A, hR2v]
  have hcl : classify_links (A :: s₀.visited) (e A).links
      = if keyword_in_link P then ([P], [R1, R2]) else ([], [P, R1, R2]) := by
    rw [hlinks]
    exact classify_three hPn hR1n hR2n hkw1 hkw2
  have hs2 := congrArg Prod.snd (processUrl_content e A s₀ hA hcontent)
  rw [hcl] at hs2
  by_cases hkP : keyword_in_link P
  · rw [if_pos hkP] at hs2
    refine ⟨pop_order e mp fuel _ P R1 hPR1 hkw1 ?_ (Or.inl ?_),
            pop_order e mp fuel _ P R2 hPR2 hkw2 ?_ (Or.inl ?_)⟩
    · rw [hs2]
      simp [hq1, Ne.symm hPR1]
    · rw [hs2]
      simp
    · rw [hs2]
      simp [hq2, Ne.symm hPR2]
    · rw [hs2]
      simp
  · rw [if_neg hkP] at hs2
    refine ⟨pop_order e mp fuel _ P R1 hPR1 hkw1 ?_
              (Or.inr ⟨s₀.rq, [R1, R2], ?_, hr1⟩),
            pop_order e mp fuel _ P R2 hPR2 hkw2 ?_
              (Or.inr ⟨s₀.rq, [R1, R2], ?_, hr2⟩)⟩
    · rw [hs2]
      simp [hq1]
    · rw [hs2]
    · rw [hs2]
      simp [hq2]
    · rw [hs2]

/-- Witness for C2 on a concrete graph: the regular links `c2R1`, `c2R2`
are never popped before the priority link `c2P`. -/
theorem claim_C2_witness :
    precedes c2P c2R1
        (popped_urls (scrape_run c2_extract 10 10
          (processUrl c2_extract c2A ⟨[], [], [], [], 0⟩).2).1)
    ∧ precedes c2P c2R2
        (popped_urls (scrape_run c2_extract 10 10
          (processUrl c2_extract c2A ⟨[], [], [], [], 0⟩).2).1) :=
  claim_C2_priority_link_popped_first c2_extract 10 10 ⟨[], [], [], [], 0⟩
    c2A c2P c2R1 c2R2 (by decide) (by decide) (by decide) (by decide) (by decide)
    (by decide) (by decide) (by decide) (by decide) (by decide) (by decide)
    (by decide) (by decide) (by decide) (by decide) (by decide) (by decide)

/-- A state satisfying the loop's exit condition is left unchanged by
any amount of further fuel. -/
theorem scrape_run_of_done (e : String → Extracted) (mp : Nat) (fuel : Nat)
    (s : ScrapeState) (h : loop_done mp s) : scrape_run e mp fuel s = ([], s) := by
  cases fuel with
  | zero => rfl
  | succ n =>
    rcases h with ⟨h1, h2⟩ | h
    · by_cases hb : s.pageCount < mp
      · simp [scrape_run, hb, scrape_step, h1, h2]
      · simp [scrape_run, hb]
    · simp [scrape_run, Nat.not_lt.mpr h]

/-- One iteration on a single-URL frontier whose page has non-empty
content and exactly one fresh outbound link: the link ends up as the
sole element of one of the two queues. -/
theorem chain_step (e : String → Extracted) (u l : String) (pq rq v : List String)
    (sc : List PageRec) (pc : Nat)
    (hq : (pq = [u] ∧ rq = []) ∨ (pq = [] ∧ rq = [u]))
    (hu : u ∉ v) (hc : (e u).content ≠ []) (hl : (e u).links = [l])
    (hlu : l ≠ u) (hlv : l ∉ v) :
    ∃ pq' rq', ((pq' = [l] ∧ rq' = []) ∨ (pq' = [] ∧ rq' = [l]))
      ∧ scrape_step e ⟨pq, rq, v, sc, pc⟩
          = some ((u, true),
              ⟨pq', rq', u :: v, sc ++ [⟨u, (e u).title, (e u).content⟩], pc + 1⟩) := by
  have hln : l ∉ u :: v := by simp [List.mem_cons, hlu, hlv]
  have hcl : classify_links (u :: v) (e u).links
      = if keyword_in_link l then ([l], []) else ([], [l]) := by
    rw [hl]
    by_cases hk : keyword_in_link l <;>
      simp [classify_links, classify_links_from, hln, hk]
  have hstep : scrape_step e ⟨pq, rq, v, sc, pc⟩
      = some (processUrl e u ⟨[], [], v, sc, pc⟩) := by
    rcases hq with ⟨rfl, rfl⟩ | ⟨rfl, rfl⟩ <;> simp [scrape_step]
  by_cases hk : keyword_in_link l
  · refine ⟨[l], [], Or.inl ⟨rfl, rfl⟩, ?_⟩
    rw [hstep, processUrl_content e u _ (by simpa using hu) hc, hcl, if_pos hk]
    simp
  · refine ⟨[], [l], Or.inr ⟨rfl, rfl⟩, ?_⟩
    rw [hstep, processUrl_content e u _ (by simpa using hu) hc, hcl, if_neg hk]
    simp

/-- C6: with budget `max_pages = 3` on an unbounded link chain — every
page has non-empty content and links to exactly one fresh page — the
loop halts in its budget-exhausted exit state after exactly three
iterations (any further fuel changes nothing) having produced exactly 3
PageRecords. -/
theorem claim_C6_budget_termination
    (e : String → Extracted) (f : String → String) (seed : String)
    (hx : ∀ u, (e u).content ≠ [] ∧ (e u).links = [f u])
    (h01 : f seed ≠ seed)
    (h02 : f (f seed) ≠ seed) (h12 : f (f seed) ≠ f seed)
    (h03 : f (f (f seed)) ≠ seed) (h13 : f (f (f seed)) ≠ f seed)
    (h23 : f (f (f seed)) ≠ f (f seed)) :
    ∀ fuel, 3 ≤ fuel →
      (scrape_run e 3 fuel (init_state seed)).2.scraped.length = 3
      ∧ (scrape_run e 3 fuel (init_state seed)).2.pageCount = 3
      ∧ loop_done 3 (scrape_run e 3 fuel (init_state seed)).2
      ∧ scrape_run e 3 fuel (init_state seed) = scrape_run e 3 3 (init_state seed) := by
  obtain ⟨pq1, rq1, hq1, hstep1⟩ :=
    chain_step e seed (f seed) [seed] [] [] [] 0 (Or.inl ⟨rfl, rfl⟩)
      (by simp) (hx seed).1 (hx seed).2 h01 (by simp)
  obtain ⟨pq2, rq2, hq2, hstep2⟩ :=
    chain_step e (f seed) (f (f seed)) pq1 rq1 [seed]
      ([] ++ [⟨seed, (e seed).title, (e seed).content⟩]) (0 + 1) hq1
      (by simp [h01]) (hx (f seed)).1 (hx (f seed)).2 h12 (by simp [h02])
  obtain ⟨pq3, rq3, hq3, hstep3⟩ :=
    chain_step e (f (f seed)) (f (f (f seed))) pq2 rq2 (f seed :: [seed])
      (([] ++ [⟨seed, (e seed).title, (e seed).content⟩])
        ++ [⟨f seed, (e (f seed)).title, (e (f seed)).content⟩]) (0 + 1 + 1) hq2
      (by simp [h12, h02]) (hx (f (f seed))).1 (hx (f (f seed))).2 h23
      (by simp [h13, h03])
  have key : ∀ m, scrape_run e 3 (3 + m) (init_state seed)
      = ([(seed, true), (f seed, true), (f (f seed), true)],
         ⟨pq3, rq3, f (f seed) :: f seed :: [seed],
           (([] ++ [⟨seed, (e seed).title, (e seed).content⟩])
             ++ [⟨f seed, (e (f seed)).title, (e (f seed)).content⟩])
             ++ [⟨f (f seed), (e (f (f seed))).title, (e (f (f seed))).content⟩],
           0 + 1 + 1 + 1⟩) := by
    intro m
    rw [show init_state seed = ⟨[seed], [], [], [], 0⟩ from rfl]
    rw [show 3 + m = (2 + m) + 1 from by omega]
    rw [scrape_run_step (2 + m) (by simp) hstep1]
    rw [show 2 + m = (1 + m) + 1 from by omega]
    rw [scrape_run_step (1 + m) (by simp) hstep2]
    rw [show 1 + m = m + 1 from by omega]
    rw [scrape_run_step m (by simp) hstep3]
    rw [scrape_run_of_done e 3 m _ (Or.inr (by simp))]
  intro fuel hfuel
  obtain ⟨k, rfl⟩ : ∃ k, fuel = 3 + k := ⟨fuel - 3, by omega⟩
  refine ⟨?_, ?_, ?_, ?_⟩
  · rw [key k]
    simp
  · rw [key k]
  · rw [key k]
    exact Or.inr (by simp)
  · exact (key k).trans (key 0).symm

/-- Witness for C6 on a concrete infinite chain. -/
theorem claim_C6_witness :
    (scrape_run c6_extract 3 10 (init_state "https://h/d/a")).2.scraped.length = 3
    ∧ (scrape_run c6_extract 3 10 (init_state "https://h/d/a")).2.pageCount = 3 := by
  have h := claim_C6_budget_termination c6_extract c6f "https://h/d/a"
    (fun u => ⟨by simp [c6_extract], by simp [c6_extract]⟩)
    (by decide) (by decide) (by decide) (by decide) (by decide) (by decide)
    10 (by omega)
  exact ⟨h.1, h.2.1⟩

/-- Witness for C7: a fetcher that always fails yields the empty
extraction result, and a visited URL is never in the fetch trace. -/
theorem claim_C7_witness :
    extract_content (fun _ => none) c9_fetchSpec "https://h/docs/" [] "https://h/docs/p"
        = ⟨none, [], []⟩
    ∧ dA ∉ fetched_urls (scrape_run diamond_extract 10 10 ⟨[dA], [], [dA], [], 0⟩).1 :=
  ⟨claim_C7_error_handling.1 (fun _ => none) c9_fetchSpec "https://h/docs/" []
      "https://h/docs/p" rfl,
    claim_C7_error_handling.2.2.2.2.1 diamond_extract 10 10 ⟨[dA], [], [dA], [], 0⟩ dA
      (by decide)⟩

end DocFetcher
